import Mathlib

/-!
Verification development for the public work-request submission system
(dynamic form engine, CMP API client, submission retry pipeline, rate limiter).

Each definition below is a shallow embedding of a function from the source:
* `serializeFieldValue` / `serializeFormData` — `src/lib/form-engine/serializers.ts`
* `computeConditionalLogic` — `src/components/public/useConditionalLogic.ts`
* `requestModel` / `getTokenModel` — `src/lib/cmp-client/index.ts`, `auth.ts`
* `fetchAllPagesFuel` — `CmpClient.fetchAllPages` in `src/lib/cmp-client/index.ts`
* the `Submission` transition system — `app/api/v1/public/submissions/route.ts`
  and the internal retry route
* `rlCheck` — the `RateLimiter` class in `src/lib/security`

JavaScript dynamic values are modelled by `JsValue`; numbers are modelled as
integers (all claims concern integer inputs), arrays as string arrays (the
source casts every array-valued form value to `string[]`).
-/

namespace WorkRequest

/-- A dynamically-typed form value as handled by the source. Arrays are
string arrays (the source casts `value as string[]`); numbers are modelled
as integers. `none` at a use site stands for JS `undefined`. -/
inductive JsValue where
  | vNull : JsValue
  | vStr (s : String) : JsValue
  | vNum (n : Int) : JsValue
  | vBool (b : Bool) : JsValue
  | vArr (xs : List String) : JsValue
deriving DecidableEq, Repr

/-- JS `String(v)` coercion for the value shapes of `JsValue`. -/
def jsString : JsValue → String
  | .vNull => "null"
  | .vStr s => s
  | .vNum n => toString n
  | .vBool b => cond b "true" "false"
  | .vArr xs => String.intercalate "," xs

/-- Type `FormValues`: mapping from field identifier to a dynamic value. -/
abbrev FormValues := List (String × JsValue)

/-- Lookup `values[identifier]` — JS object lookup; `none` is `undefined`. -/
def lookupValue (values : FormValues) (k : String) : Option JsValue :=
  (values.find? (fun p => decide (p.1 = k))).map (·.2)

/-- One choice in a choice-bearing field's `type_specific_meta.choices`. -/
structure CmpChoice where
  id : String
  name : String
deriving DecidableEq, Repr

/-- Kind-specific metadata (`type_specific_meta`). -/
structure CmpTypeMeta where
  choices : Option (List CmpChoice)
  is_multi_select : Option Bool
deriving DecidableEq, Repr

/-- One condition of a logic rule. -/
structure CmpLogicCondition where
  field_identifier : String
  operator : String
  values : List String
deriving DecidableEq, Repr

/-- A conditional-logic rule attached to its source field. -/
structure CmpLogicRule where
  action : String
  target_identifier : String
  conditions : List CmpLogicCondition
deriving DecidableEq, Repr

/-- A form field from a template snapshot (`CmpFormField` in `src/types`). -/
structure CmpFormField where
  identifier : String
  label : String
  type : String
  is_required : Bool
  order : Int
  type_specific_meta : Option CmpTypeMeta
  logic_rules : Option (List CmpLogicRule)
deriving DecidableEq, Repr

/-- Accessor `field.type_specific_meta?.choices ?? []`. -/
def fieldChoices (field : CmpFormField) : List CmpChoice :=
  match field.type_specific_meta with
  | some m => m.choices.getD []
  | none => []

/-- Accessor `field.type_specific_meta?.is_multi_select === true`. -/
def fieldIsMultiSelect (field : CmpFormField) : Bool :=
  match field.type_specific_meta with
  | some m => m.is_multi_select == some true
  | none => false

/-- One element of a serialized entry's `values` array: a JSON string, a
`{type:"text_brief", value}` object, or a `{id, name}` choice object. -/
inductive SerializedValue where
  | str (s : String) : SerializedValue
  | textBrief (value : String) : SerializedValue
  | choice (id : String) (name : String) : SerializedValue
deriving DecidableEq, Repr

/-- The shape of a single serialized field entry for the CMP API. -/
structure SerializedFieldEntry where
  identifier : String
  type : String
  values : List SerializedValue
deriving DecidableEq, Repr

/-- JS `typeof value === "string" ? value : ""`. -/
def jsStringOrEmpty : Option JsValue → String
  | some (.vStr s) => s
  | _ => ""

/-- JS `Array.isArray(value) ? (value as string[]) : []`. -/
def jsArrayOrEmpty : Option JsValue → List String
  | some (.vArr xs) => xs
  | _ => []

/-- The checkbox / multi-select mapping: resolve each selected id in the
declared choice list to a `{id, name}` object, silently dropping ids that
do not resolve. -/
def resolveChoiceObjects (choices : List CmpChoice) (selected : List String) :
    List SerializedValue :=
  selected.filterMap (fun id =>
    (choices.find? (fun c => decide (c.id = id))).map
      (fun c => SerializedValue.choice c.id c.name))

/-- JS `value != null && value !== "" ? String(value) : "0"` — the
percentage/currency wire string: JS `String(...)` of the value unless the
value is `undefined`, `null`, or the empty string, which give `"0"`. -/
def numericSerializedString (value : Option JsValue) : String :=
  match value with
  | none => "0"
  | some .vNull => "0"
  | some (.vStr s) => if s = "" then "0" else s
  | some (.vNum n) => toString n
  | some (.vBool b) => cond b "true" "false"
  | some (.vArr xs) => String.intercalate "," xs

/-- Embedding of `serializeFieldValue` from `src/lib/form-engine/serializers.ts`:
converts one field's dynamic value to the CMP wire entry, or `none` for
the skipped kinds (`file`, `instruction`, `section`) and unknown kinds. -/
def serializeFieldValue (field : CmpFormField) (value : Option JsValue) :
    Option SerializedFieldEntry :=
  match field.type with
  | "text" | "text_area" =>
    some ⟨field.identifier, field.type, [.str (jsStringOrEmpty value)]⟩
  | "richtext" | "brief" =>
    some ⟨field.identifier, field.type, [.textBrief (jsStringOrEmpty value)]⟩
  | "checkbox" =>
    some ⟨field.identifier, field.type,
          resolveChoiceObjects (fieldChoices field) (jsArrayOrEmpty value)⟩
  | "dropdown" | "label" =>
    if fieldIsMultiSelect field then
      some ⟨field.identifier, field.type,
            resolveChoiceObjects (fieldChoices field) (jsArrayOrEmpty value)⟩
    else
      match (fieldChoices field).find? (fun c => decide (c.id = jsStringOrEmpty value)) with
      | some choice => some ⟨field.identifier, field.type, [.choice choice.id choice.name]⟩
      | none => some ⟨field.identifier, field.type, [.str (jsStringOrEmpty value)]⟩
  | "radio_button" =>
    match (fieldChoices field).find? (fun c => decide (c.id = jsStringOrEmpty value)) with
    | some choice => some ⟨field.identifier, field.type, [.choice choice.id choice.name]⟩
    | none => some ⟨field.identifier, field.type, [.str (jsStringOrEmpty value)]⟩
  | "date" =>
    some ⟨field.identifier, field.type,
      [.str (if jsStringOrEmpty value ≠ "" ∧ ¬ (jsStringOrEmpty value).contains 'T' then
               jsStringOrEmpty value ++ "T00:00:00Z"
             else jsStringOrEmpty value)]⟩
  | "percentage_number" | "currency_number" =>
    some ⟨field.identifier, field.type, [.str (numericSerializedString value)]⟩
  | "file" | "instruction" | "section" => none
  | _ => none

/-- JS `condition.values.includes(String(fieldValue ?? ""))` operand:
`undefined ?? ""` and `null ?? ""` both give `""`. -/
def condValueString : Option JsValue → String
  | none => ""
  | some .vNull => ""
  | some (.vStr s) => s
  | some (.vNum n) => toString n
  | some (.vBool b) => cond b "true" "false"
  | some (.vArr xs) => String.intercalate "," xs

/-- One condition with operator `equal` (`evaluateConditions` inner loop in
`useConditionalLogic.ts`): an array value matches if some literal is an
element, otherwise the coerced string must be among the literals. Any
operator other than `equal` never holds. -/
def evalCondition (values : FormValues) (c : CmpLogicCondition) : Bool :=
  let fieldValue := lookupValue values c.field_identifier
  if c.operator = "equal" then
    match fieldValue with
    | some (.vArr xs) => c.values.any (fun v => xs.contains v)
    | _ => c.values.contains (condValueString fieldValue)
  else
    false

/-- A rule fires when all of its conditions hold. -/
def evaluateConditions (rule : CmpLogicRule) (values : FormValues) : Bool :=
  rule.conditions.all (evalCondition values)

/-- JS `Array.prototype.findIndex`, with `none` for the `-1` result. -/
def findIndexJs (p : α → Bool) : List α → Option Nat
  | [] => none
  | x :: xs => if p x then some 0 else (findIndexJs p xs).map (· + 1)

/-- Stable ascending insertion used by `sortFields`. -/
def insertByOrder (f : CmpFormField) : List CmpFormField → List CmpFormField
  | [] => [f]
  | g :: gs => if f.order ≤ g.order then f :: g :: gs else g :: insertByOrder f gs

/-- JS `[...fields].sort((a, b) => a.order - b.order)` — a stable ascending
sort by `order`, modelled as stable insertion sort. -/
def sortFields : List CmpFormField → List CmpFormField
  | [] => []
  | f :: fs => insertByOrder f (sortFields fs)

/-- JS `Array.from(new Set(xs))` prefixed by an accumulator: appends each
element not already present, keeping first-occurrence order. -/
def insertUniqueAll (acc : List String) : List String → List String
  | [] => acc
  | x :: xs => insertUniqueAll (if x ∈ acc then acc else acc ++ [x]) xs

/-- Lookup in the `filteredChoices` record. -/
def lookupChoices (m : List (String × List String)) (k : String) : Option (List String) :=
  (m.find? (fun p => decide (p.1 = k))).map (·.2)

/-- Assignment `filteredChoices[k] = v`: replace the binding if present,
else append it. -/
def setChoices (m : List (String × List String)) (k : String) (v : List String) :
    List (String × List String) :=
  match m with
  | [] => [(k, v)]
  | (k', v') :: rest =>
    if k' = k then (k', v) :: rest else (k', v') :: setChoices rest k v

/-- The `ConditionalLogicResult` of `useConditionalLogic.ts`: the set of
visible field identifiers and the per-field choice allow-lists. -/
structure ConditionalLogicResult where
  visibleFields : Finset String
  filteredChoices : List (String × List String)
deriving DecidableEq

/-- The body of the inner rule loop of `computeConditionalLogic`: applies
one rule of `field` to the visibility/choice-filter state. -/
def applyRule (sortedFields : List CmpFormField) (values : FormValues)
    (field : CmpFormField) (st : Finset String × List (String × List String))
    (rule : CmpLogicRule) : Finset String × List (String × List String) :=
  let conditionsMet := evaluateConditions rule values
  let st1 :=
    if rule.action = "jump_to" ∧ conditionsMet = true then
      match findIndexJs (fun f => decide (f.identifier = field.identifier)) sortedFields,
            findIndexJs (fun f => decide (f.identifier = rule.target_identifier)) sortedFields with
      | some currentIndex, some targetIndex =>
        if currentIndex < targetIndex then
          (((sortedFields.drop (currentIndex + 1)).take (targetIndex - (currentIndex + 1))).foldl
            (fun vis f => vis.erase f.identifier) st.1, st.2)
        else st
      | _, _ => st
    else st
  if rule.action = "show_values" ∧ conditionsMet = true then
    let existing := (lookupChoices st1.2 rule.target_identifier).getD []
    let newVals := rule.conditions.foldl (fun acc c => acc ++ c.values) []
    (st1.1, setChoices st1.2 rule.target_identifier (insertUniqueAll [] (existing ++ newVals)))
  else st1

/-- The per-field step of `computeConditionalLogic`: process the field's
rules (none when `logic_rules` is absent or empty) in declaration order. -/
def applyFieldRules (sortedFields : List CmpFormField) (values : FormValues)
    (st : Finset String × List (String × List String)) (field : CmpFormField) :
    Finset String × List (String × List String) :=
  (field.logic_rules.getD []).foldl (applyRule sortedFields values field) st

/-- Embedding of `computeConditionalLogic` from `useConditionalLogic.ts`: start with all
identifiers visible and no choice filters, then walk the `order`-sorted
fields applying each field's rules. -/
def computeConditionalLogic (fields : List CmpFormField) (values : FormValues) :
    ConditionalLogicResult :=
  let sortedFields := sortFields fields
  let result := sortedFields.foldl (applyFieldRules sortedFields values)
    ((fields.map (·.identifier)).toFinset, [])
  ⟨result.1, result.2⟩

/-- Embedding of `serializeFormData` from `src/lib/form-engine/serializers.ts`:
walks the field list in the given order, keeps the fields whose identifier
is in `visibleFields`, and concatenates non-null serializations. -/
def serializeFormData (fields : List CmpFormField) (values : FormValues)
    (visibleFields : List String) : List SerializedFieldEntry :=
  match fields with
  | [] => []
  | f :: rest =>
    if f.identifier ∈ visibleFields then
      match serializeFieldValue f (lookupValue values f.identifier) with
      | some entry => entry :: serializeFormData rest values visibleFields
      | none => serializeFormData rest values visibleFields
    else
      serializeFormData rest values visibleFields

/-- The process-local token cache of `CmpTokenManager` (`cmp-client/auth.ts`):
the cached access token and its expiry instant in epoch milliseconds. -/
structure CmpTokenState where
  accessToken : Option String
  expiresAt : Nat
deriving DecidableEq, Repr

/-- Refresh buffer before token expiry (5 minutes, `EXPIRY_BUFFER_MS`). -/
def EXPIRY_BUFFER_MS : Nat := 5 * 60 * 1000

/-- Embedding of `CmpTokenManager.getToken`: reuse the cached token while
`now < expiresAt - EXPIRY_BUFFER_MS` (truncated subtraction agrees with the
JS integer comparison since `now ≥ 0`), else fetch. The environment supplies
the fetched token and its `expires_in` (seconds); the result also reports
how many fetches happened (0 or 1). -/
def getTokenModel (tm : CmpTokenState) (now : Nat) (freshToken : String)
    (expiresIn : Nat) : String × CmpTokenState × Nat :=
  match tm.accessToken with
  | some t =>
    if now < tm.expiresAt - EXPIRY_BUFFER_MS then (t, tm, 0)
    else (freshToken, ⟨some freshToken, now + expiresIn * 1000⟩, 1)
  | none => (freshToken, ⟨some freshToken, now + expiresIn * 1000⟩, 1)

/-- Embedding of `CmpTokenManager.invalidate`: clear the cached token. -/
def invalidateToken (_tm : CmpTokenState) : CmpTokenState := ⟨none, 0⟩

/-- An HTTP response seen by `CmpClient.request`: status plus body text. -/
structure HttpResponse where
  status : Nat
  body : String
deriving DecidableEq, Repr

/-- JS `Response.ok`: status in `[200, 300)`. -/
def respOk (r : HttpResponse) : Bool := decide (200 ≤ r.status) && decide (r.status < 300)

/-- The data carried by the error `CmpClient.request` throws on a non-2xx
response (the source interpolates exactly these four into the `Error`
message string). -/
structure CmpApiError where
  method : String
  path : String
  status : Nat
  body : String
deriving DecidableEq, Repr

/-- Observable outcome of one `CmpClient.request` call: the result (body on
success, the thrown error otherwise), the number of HTTP attempts made, a
flag recording whether the cached token was invalidated, the bearer tokens
attached to the attempts in order, and the final token-cache state. -/
structure RequestOutcome where
  result : Except CmpApiError String
  attempts : Nat
  invalidatedToken : Bool
  tokensUsed : List String
  finalTokenState : CmpTokenState
deriving Repr

/-- Embedding of `CmpClient.request` from `cmp-client/index.ts`: run one attempt with a
token from `getToken`; on a 401, invalidate the cache, get a fresh token
and retry the same request exactly once; any final non-2xx response is
surfaced as an error carrying method, path, status and body. The
environment supplies the responses `r1` (first attempt) and `r2` (retry)
and the tokens the OAuth endpoint would return. -/
def requestModel (method path : String) (tm : CmpTokenState) (now : Nat)
    (fresh1 fresh2 : String) (expiresIn : Nat) (r1 r2 : HttpResponse) :
    RequestOutcome :=
  let g1 := getTokenModel tm now fresh1 expiresIn
  if r1.status = 401 then
    let g2 := getTokenModel (invalidateToken g1.2.1) now fresh2 expiresIn
    if respOk r2 then
      ⟨.ok r2.body, 2, true, [g1.1, g2.1], g2.2.1⟩
    else
      ⟨.error ⟨method, path, r2.status, r2.body⟩, 2, true, [g1.1, g2.1], g2.2.1⟩
  else
    if respOk r1 then
      ⟨.ok r1.body, 1, false, [g1.1], g1.2.1⟩
    else
      ⟨.error ⟨method, path, r1.status, r1.body⟩, 1, false, [g1.1], g1.2.1⟩

/-- One page of a paginated CMP list response: the extracted item array and
the (already URL-parsed) `pagination.next` path, if any. -/
structure CmpPage where
  items : List String
  next : Option String
deriving DecidableEq, Repr

/-- Embedding of `CmpClient.fetchAllPages`, with explicit fuel: each loop iteration
fetches `env path`, appends its items, breaks once more than 5000 items
have accumulated, and otherwise follows `pagination.next` (loop ends when
it is absent). The result is `none` exactly when `fuel` iterations did not
finish the loop. -/
def fetchAllPagesFuel (env : String → CmpPage) :
    Nat → List String → Option String → Option (List String)
  | 0, _, _ => none
  | _ + 1, allItems, none => some allItems
  | n + 1, allItems, some path =>
    let page := env path
    let allItems2 := allItems ++ page.items
    if 5000 < allItems2.length then some allItems2
    else fetchAllPagesFuel env n allItems2 page.next

/-- A pathological pagination environment: every page has an empty item
array and a `pagination.next` link pointing back at itself. -/
def cyclicEmptyEnv : String → CmpPage := fun path => ⟨[], some path⟩

/-- The `status` column of a `Submission` row. -/
inductive SubmissionStatus where
  | pending | submitted | failed | retrying
deriving DecidableEq, Repr

/-- A persisted `Submission` row (the columns the pipeline mutates).
Timestamps are epoch milliseconds. -/
structure Submission where
  status : SubmissionStatus
  cmpWorkRequestId : Option String
  errorMessage : Option String
  retryCount : Nat
  nextRetryAt : Option Nat
  completedAt : Option Nat
deriving DecidableEq, Repr

/-- Maximum number of retry attempts before giving up (`MAX_RETRIES`). -/
def MAX_RETRIES : Nat := 5

/-- Backoff intervals in milliseconds, indexed by retry count
(`RETRY_BACKOFF_MS`: 1m, 5m, 15m, 1h, 4h). -/
def RETRY_BACKOFF_MS : List Nat :=
  [1 * 60 * 1000, 5 * 60 * 1000, 15 * 60 * 1000, 60 * 60 * 1000, 4 * 60 * 60 * 1000]

/-- The row created by the public submission route:
`status=PENDING, retryCount=0`, every nullable column null. -/
def initialSubmission : Submission :=
  ⟨.pending, none, none, 0, none, none⟩

/-- Success update of the public submission route: `SUBMITTED`, store the
work-request id and completion time (the update touches no other column). -/
def publicSubmitSuccess (s : Submission) (workRequestId : String) (now : Nat) :
    Submission :=
  { s with status := .submitted, cmpWorkRequestId := some workRequestId,
           completedAt := some now }

/-- Failure update of the public submission route: `FAILED`, record the
error, schedule the first retry at `now + RETRY_BACKOFF_MS[0]`. -/
def publicSubmitFailure (s : Submission) (msg : String) (now : Nat) : Submission :=
  { s with status := .failed, errorMessage := some msg,
           nextRetryAt := some (now + RETRY_BACKOFF_MS.getD 0 0) }

/-- The retry scheduler's eligibility query:
`status ∈ {FAILED, RETRYING}`, `nextRetryAt ≤ now` (null excluded by the
SQL comparison), `retryCount < MAX_RETRIES`. -/
def eligibleForRetry (s : Submission) (now : Nat) : Bool :=
  (s.status == .failed || s.status == .retrying)
  && (match s.nextRetryAt with
      | some t => decide (t ≤ now)
      | none => false)
  && decide (s.retryCount < MAX_RETRIES)

/-- The scheduler's first write for a selected row: flip only `status`
to `RETRYING`. -/
def schedMarkRetrying (s : Submission) : Submission :=
  { s with status := .retrying }

/-- Retry success update: `SUBMITTED`, store the work-request id and
completion time, clear `errorMessage` and `nextRetryAt`. -/
def retrySuccessUpdate (s : Submission) (workRequestId : String) (now : Nat) :
    Submission :=
  { s with status := .submitted, cmpWorkRequestId := some workRequestId,
           completedAt := some now, errorMessage := none, nextRetryAt := none }

/-- Retry failure update: increment `retryCount`; while the new count is
below `MAX_RETRIES` schedule `now + RETRY_BACKOFF_MS[newRetryCount]`,
otherwise leave `FAILED` with no next retry. -/
def retryFailureUpdate (s : Submission) (msg : String) (now : Nat) : Submission :=
  let newRetryCount := s.retryCount + 1
  { s with status := .failed, retryCount := newRetryCount,
           errorMessage := some msg,
           nextRetryAt :=
             if newRetryCount < MAX_RETRIES then
               some (now + RETRY_BACKOFF_MS.getD newRetryCount 0)
             else none }

/-- One persisted state change of a `Submission` row, as performed by the
public submission route or the retry scheduler route. The retry updates
require the row to have been selected by the eligibility scan (status
`FAILED`/`RETRYING` with `retryCount < MAX_RETRIES`); the success update
additionally happens only after the flip to `RETRYING`. -/
inductive SubmissionStep : Submission → Submission → Prop where
  | publicSuccess (s : Submission) (workRequestId : String) (now : Nat) :
      s.status = .pending → SubmissionStep s (publicSubmitSuccess s workRequestId now)
  | publicFailure (s : Submission) (msg : String) (now : Nat) :
      s.status = .pending → SubmissionStep s (publicSubmitFailure s msg now)
  | markRetrying (s : Submission) (now : Nat) :
      eligibleForRetry s now = true → SubmissionStep s (schedMarkRetrying s)
  | retryOk (s : Submission) (workRequestId : String) (now : Nat) :
      s.status = .retrying → s.retryCount < MAX_RETRIES →
      SubmissionStep s (retrySuccessUpdate s workRequestId now)
  | retryFail (s : Submission) (msg : String) (now : Nat) :
      (s.status = .failed ∨ s.status = .retrying) → s.retryCount < MAX_RETRIES →
      SubmissionStep s (retryFailureUpdate s msg now)

/-- A `Submission` row state reachable from creation through the
pipeline's and the scheduler's updates. -/
inductive ReachableSubmission : Submission → Prop where
  | init : ReachableSubmission initialSubmission
  | step {s s' : Submission} :
      ReachableSubmission s → SubmissionStep s s' → ReachableSubmission s'

/-- One per-key entry of the rate limiter's map. -/
structure RateLimitEntry where
  count : Nat
  resetTime : Nat
deriving DecidableEq, Repr

/-- The result of `RateLimiter.check`. -/
structure RateLimitResult where
  allowed : Bool
  retryAfter : Option Nat
deriving DecidableEq, Repr

/-- The `RateLimiter` instance state: configuration plus the
per-key request map (modelled as an association list). -/
structure RateLimiterState where
  maxRequests : Nat
  windowMs : Nat
  requests : List (String × RateLimitEntry)
deriving DecidableEq, Repr

/-- Lookup in the request map. -/
def lookupEntry (reqs : List (String × RateLimitEntry)) (ip : String) :
    Option RateLimitEntry :=
  (reqs.find? (fun p => decide (p.1 = ip))).map (·.2)

/-- JS `Map.set`: replace the binding if present, else append it. -/
def setEntry (reqs : List (String × RateLimitEntry)) (ip : String)
    (e : RateLimitEntry) : List (String × RateLimitEntry) :=
  match reqs with
  | [] => [(ip, e)]
  | (k, v) :: rest =>
    if k = ip then (k, e) :: rest else (k, v) :: setEntry rest ip e

/-- Embedding of `RateLimiter.cleanup`: drop every entry whose window has expired
(`now >= resetTime`). -/
def rlCleanup (now : Nat) (st : RateLimiterState) : RateLimiterState :=
  { st with requests := st.requests.filter (fun p => decide (now < p.2.resetTime)) }

/-- Embedding of `RateLimiter.check` from the source: cleanup, then either start a
window (no entry, or entry expired), deny with
`retryAfter = Math.ceil((resetTime - now) / 1000)` when the count has
reached `maxRequests`, or increment the count. Returns the result and the
updated limiter state. -/
def rlCheck (st : RateLimiterState) (ip : String) (now : Nat) :
    RateLimitResult × RateLimiterState :=
  let st1 := rlCleanup now st
  match lookupEntry st1.requests ip with
  | none =>
    (⟨true, none⟩, { st1 with requests := setEntry st1.requests ip ⟨1, now + st1.windowMs⟩ })
  | some entry =>
    if entry.resetTime ≤ now then
      (⟨true, none⟩, { st1 with requests := setEntry st1.requests ip ⟨1, now + st1.windowMs⟩ })
    else if st1.maxRequests ≤ entry.count then
      (⟨false, some ((entry.resetTime - now + 999) / 1000)⟩, st1)
    else
      (⟨true, none⟩,
       { st1 with requests := setEntry st1.requests ip ⟨entry.count + 1, entry.resetTime⟩ })

/-- Run a sequence of `check` calls for one key at the given times,
collecting the results and threading the limiter state. -/
def runChecks (st : RateLimiterState) (ip : String) :
    List Nat → List RateLimitResult × RateLimiterState
  | [] => ([], st)
  | t :: ts =>
    let p := rlCheck st ip t
    let q := runChecks p.2 ip ts
    (p.1 :: q.1, q.2)

/-- Example source field `A`: a radio button carrying one `jump_to` rule
targeting `C`, firing when `A` has value `"yes"`. -/
def cfJumpSource : CmpFormField :=
  ⟨"A", "Question A", "radio_button", false, 1,
   some ⟨some [⟨"yes", "Yes"⟩, ⟨"no", "No"⟩], none⟩,
   some [⟨"jump_to", "C", [⟨"A", "equal", ["yes"]⟩]⟩]⟩

/-- Example skipped field `B` between source and target. -/
def cfJumpMid : CmpFormField := ⟨"B", "Question B", "text", false, 2, none, none⟩

/-- Example jump target field `C`. -/
def cfJumpTarget : CmpFormField := ⟨"C", "Question C", "text", false, 3, none, none⟩

/-! ## Theorems -/

/-- C1: For every failed retry attempt the handler increments `retryCount`
by one and sets `status=FAILED`; while the new count is below 5 it sets
`nextRetryAt = now + RETRY_BACKOFF_MS[newRetryCount]` over the fixed
schedule `[1m, 5m, 15m, 1h, 4h]`, and when the new count reaches 5 it sets
`nextRetryAt = null`, after which the scheduler's eligibility query
excludes the row at every future instant. -/
theorem retryFailure_schedule (s : Submission) (msg : String) (now : Nat)
    (_h : s.retryCount < MAX_RETRIES) :
    (retryFailureUpdate s msg now).retryCount = s.retryCount + 1 ∧
    (retryFailureUpdate s msg now).status = .failed ∧
    RETRY_BACKOFF_MS = [60000, 300000, 900000, 3600000, 14400000] ∧
    ((retryFailureUpdate s msg now).retryCount < 5 →
      (retryFailureUpdate s msg now).nextRetryAt =
        some (now + RETRY_BACKOFF_MS.getD (retryFailureUpdate s msg now).retryCount 0)) ∧
    ((retryFailureUpdate s msg now).retryCount = 5 →
      (retryFailureUpdate s msg now).nextRetryAt = none ∧
      ∀ t, eligibleForRetry (retryFailureUpdate s msg now) t = false) := by
  refine ⟨rfl, rfl, by norm_num [RETRY_BACKOFF_MS], ?_, ?_⟩
  · intro h5
    simp only [retryFailureUpdate] at h5 ⊢
    rw [if_pos]
    exact h5
  · intro h5
    simp only [retryFailureUpdate, MAX_RETRIES] at h5 ⊢
    rw [if_neg (by omega)]
    refine ⟨rfl, ?_⟩
    intro t
    simp [eligibleForRetry, MAX_RETRIES, retryFailureUpdate, h5]

/-- Witness for C1: a row selected with `retryCount = 4` is exhausted by
the failure update and is ineligible ever after. -/
theorem retryFailure_schedule_witness :
    eligibleForRetry
      (retryFailureUpdate ⟨.retrying, none, some "e", 4, some 1000, none⟩ "err" 100000)
      999999999 = false :=
  ((retryFailure_schedule ⟨.retrying, none, some "e", 4, some 1000, none⟩ "err" 100000
      (by decide)).2.2.2.2 (by decide)).2 999999999

/-- Strengthened induction invariant for reachable `Submission` rows. -/
theorem reachableSubmission_aux (s : Submission) (h : ReachableSubmission s) :
    (s.status = .pending → s.cmpWorkRequestId = none ∧ s.nextRetryAt = none ∧
       s.retryCount = 0) ∧
    (s.status = .submitted → s.cmpWorkRequestId.isSome = true ∧ s.nextRetryAt = none) ∧
    ((s.status = .failed ∨ s.status = .retrying) →
       s.cmpWorkRequestId = none ∧ (5 ≤ s.retryCount ↔ s.nextRetryAt = none)) := by
  induction h with
  | init => simp [initialSubmission]
  | @step s s' _ hstep ih =>
    cases hstep with
    | publicSuccess wid now hp =>
      obtain ⟨hw, hn, _⟩ := ih.1 hp
      refine ⟨by simp [publicSubmitSuccess], ?_, by simp [publicSubmitSuccess]⟩
      intro _
      simp [publicSubmitSuccess, hn]
    | publicFailure msg now hp =>
      obtain ⟨hw, hn, hc⟩ := ih.1 hp
      refine ⟨by simp [publicSubmitFailure], by simp [publicSubmitFailure], ?_⟩
      intro _
      simp [publicSubmitFailure, hw, hc]
    | markRetrying now helig =>
      have hstat : s.status = .failed ∨ s.status = .retrying := by
        simp only [eligibleForRetry, Bool.and_eq_true, Bool.or_eq_true, beq_iff_eq] at helig
        exact helig.1.1
      have hcount : s.retryCount < MAX_RETRIES := by
        simp only [eligibleForRetry, Bool.and_eq_true, decide_eq_true_eq] at helig
        exact helig.2
      have hnext : s.nextRetryAt ≠ none := by
        intro hn
        simp [eligibleForRetry, hn] at helig
      obtain ⟨hw, hiff⟩ := ih.2.2 hstat
      refine ⟨by simp [schedMarkRetrying], by simp [schedMarkRetrying], ?_⟩
      intro _
      refine ⟨by simp [schedMarkRetrying, hw], ?_⟩
      simp only [schedMarkRetrying]
      constructor
      · intro h5
        exact absurd h5 (by simp [MAX_RETRIES] at hcount; omega)
      · intro hn
        exact absurd hn hnext
    | retryOk wid now hst hcnt =>
      refine ⟨by simp [retrySuccessUpdate], ?_, by simp [retrySuccessUpdate]⟩
      intro _
      simp [retrySuccessUpdate]
    | retryFail msg now hstat hcnt =>
      obtain ⟨hw, _⟩ := ih.2.2 hstat
      refine ⟨by simp [retryFailureUpdate], by simp [retryFailureUpdate], ?_⟩
      intro _
      refine ⟨by simp [retryFailureUpdate, hw], ?_⟩
      simp only [retryFailureUpdate, MAX_RETRIES] at hcnt ⊢
      by_cases hlt : s.retryCount + 1 < 5
      · rw [if_pos hlt]
        simp
        omega
      · rw [if_neg hlt]
        simp
        omega

/-- C2: every reachable `Submission` row satisfies the invariant:
`status=SUBMITTED` iff `cmpWorkRequestId` is set and `nextRetryAt` is null,
and a `FAILED`/`RETRYING` row has `retryCount ≥ 5` iff `nextRetryAt` is
null. -/
theorem submission_state_invariant (s : Submission) (h : ReachableSubmission s) :
    (s.status = .submitted ↔ s.cmpWorkRequestId.isSome = true ∧ s.nextRetryAt = none) ∧
    ((s.status = .failed ∨ s.status = .retrying) →
      (5 ≤ s.retryCount ↔ s.nextRetryAt = none)) := by
  obtain ⟨hpend, hsub, hfr⟩ := reachableSubmission_aux s h
  refine ⟨⟨hsub, ?_⟩, fun hs => (hfr hs).2⟩
  rintro ⟨hw, hn⟩
  cases hst : s.status with
  | pending => exact absurd (hpend hst).1 (by simp [Option.isSome_iff_exists] at hw; rcases hw with ⟨w, hw⟩; simp [hw])
  | submitted => rfl
  | failed => exact absurd (hfr (Or.inl hst)).1 (by simp [Option.isSome_iff_exists] at hw; rcases hw with ⟨w, hw⟩; simp [hw])
  | retrying => exact absurd (hfr (Or.inr hst)).1 (by simp [Option.isSome_iff_exists] at hw; rcases hw with ⟨w, hw⟩; simp [hw])

/-- Witness for C2: the invariant instantiated at the reachable row
produced by a successful public submission. -/
theorem submission_state_invariant_witness :
    ((publicSubmitSuccess initialSubmission "wr_1" 5).status = SubmissionStatus.submitted ↔
      (publicSubmitSuccess initialSubmission "wr_1" 5).cmpWorkRequestId.isSome = true ∧
      (publicSubmitSuccess initialSubmission "wr_1" 5).nextRetryAt = none) :=
  (submission_state_invariant _
    (ReachableSubmission.step ReachableSubmission.init
      (SubmissionStep.publicSuccess initialSubmission "wr_1" 5 rfl))).1

/-- C8 counterexample: a row abandoned in `RETRYING` after the scheduler's
flip (public submission failed at time 0, flip at time 60000, process dies)
is reachable and IS selected again by the eligibility query at the next
pass (time 120000) — `RETRYING` is in the query's status set and the flip
leaves `nextRetryAt` and `retryCount` unchanged. -/
theorem retrying_row_reselected :
    ReachableSubmission
      (schedMarkRetrying (publicSubmitFailure initialSubmission "CMP API error" 0)) ∧
    eligibleForRetry
      (schedMarkRetrying (publicSubmitFailure initialSubmission "CMP API error" 0))
      120000 = true := by
  constructor
  · exact ReachableSubmission.step
      (ReachableSubmission.step ReachableSubmission.init
        (SubmissionStep.publicFailure initialSubmission "CMP API error" 0 rfl))
      (SubmissionStep.markRetrying _ 60000 (by decide))
  · decide

/-- C8 (amended): flipping an eligible row to `RETRYING` preserves its
eligibility at every later instant, so a crash mid-retry leaves the row in
`RETRYING` only until the next scheduler pass re-selects it. -/
theorem markRetrying_keeps_eligibility (s : Submission) (now now' : Nat)
    (h : eligibleForRetry s now = true) (hle : now ≤ now') :
    eligibleForRetry (schedMarkRetrying s) now' = true := by
  cases hn : s.nextRetryAt with
  | none => simp [eligibleForRetry, hn] at h
  | some t =>
    simp only [eligibleForRetry, hn, Bool.and_eq_true, decide_eq_true_eq] at h
    simp only [eligibleForRetry, schedMarkRetrying, hn, Bool.and_eq_true, decide_eq_true_eq]
    exact ⟨⟨by simp, by omega⟩, h.2⟩

/-- Witness for C8 (amended): the concrete interrupted row is eligible
again one minute after the flip. -/
theorem markRetrying_keeps_eligibility_witness :
    eligibleForRetry (schedMarkRetrying (publicSubmitFailure initialSubmission "x" 0))
      120000 = true :=
  markRetrying_keeps_eligibility (publicSubmitFailure initialSubmission "x" 0)
    60000 120000 (by decide) (by decide)

/-- C6: every `CmpClient.request` makes at most two HTTP attempts; a 401 on
the first attempt invalidates the cached token, fetches a fresh one, uses
it for exactly one retry of the same request, and any remaining non-2xx
response (a second 401 included) is surfaced as an error carrying method,
path, status and response body; a non-401 first response is never
retried. -/
theorem cmpRequest_401_retry_once (method path : String) (tm : CmpTokenState)
    (now : Nat) (fresh1 fresh2 : String) (expiresIn : Nat) (r1 r2 : HttpResponse) :
    (requestModel method path tm now fresh1 fresh2 expiresIn r1 r2).attempts ≤ 2 ∧
    (r1.status = 401 →
      (requestModel method path tm now fresh1 fresh2 expiresIn r1 r2).invalidatedToken = true ∧
      (requestModel method path tm now fresh1 fresh2 expiresIn r1 r2).attempts = 2 ∧
      (requestModel method path tm now fresh1 fresh2 expiresIn r1 r2).tokensUsed.getD 1 ""
        = fresh2 ∧
      (requestModel method path tm now fresh1 fresh2 expiresIn
        r1 r2).finalTokenState.accessToken = some fresh2 ∧
      (respOk r2 = false →
        (requestModel method path tm now fresh1 fresh2 expiresIn r1 r2).result =
          .error ⟨method, path, r2.status, r2.body⟩) ∧
      (respOk r2 = true →
        (requestModel method path tm now fresh1 fresh2 expiresIn r1 r2).result =
          .ok r2.body)) ∧
    (r1.status ≠ 401 →
      (requestModel method path tm now fresh1 fresh2 expiresIn r1 r2).attempts = 1 ∧
      (requestModel method path tm now fresh1 fresh2 expiresIn
        r1 r2).invalidatedToken = false ∧
      (respOk r1 = false →
        (requestModel method path tm now fresh1 fresh2 expiresIn r1 r2).result =
          .error ⟨method, path, r1.status, r1.body⟩)) := by
  by_cases h1 : r1.status = 401
  · by_cases h2 : respOk r2 = true
    · simp [requestModel, getTokenModel, invalidateToken, h1, h2]
    · simp only [Bool.not_eq_true] at h2
      simp [requestModel, getTokenModel, invalidateToken, h1, h2]
  · by_cases hok : respOk r1 = true
    · simp [requestModel, h1, hok]
    · simp only [Bool.not_eq_true] at hok
      simp [requestModel, h1, hok]

/-- Witness for C6: with a cached (still valid) token, a 401 followed by a
second 401 ends in the thrown client error for the second response, with
no third attempt. -/
theorem cmpRequest_401_retry_once_witness :
    (requestModel "POST" "/v3/work-requests" ⟨some "cached", 999999999⟩ 0 "f1" "f2" 3600
        ⟨401, "unauthorized"⟩ ⟨401, "still unauthorized"⟩).result =
      Except.error ⟨"POST", "/v3/work-requests", 401, "still unauthorized"⟩ :=
  ((cmpRequest_401_retry_once "POST" "/v3/work-requests" ⟨some "cached", 999999999⟩ 0
      "f1" "f2" 3600 ⟨401, "unauthorized"⟩ ⟨401, "still unauthorized"⟩).2.1
    rfl).2.2.2.2.1 (by decide)

/-- Helper for C7: on the all-empty cyclic pagination environment the
accumulator never grows, so no amount of fuel finishes the loop. -/
theorem fetchAllPages_cyclicEmpty_aux (n : Nat) (p : String) :
    fetchAllPagesFuel cyclicEmptyEnv n [] (some p) = none := by
  induction n generalizing p with
  | zero => rfl
  | succ n ih =>
    simpa [fetchAllPagesFuel, cyclicEmptyEnv] using ih p

/-- C7: `fetchAllPages` does NOT terminate on every page-response
sequence: on a cyclic `pagination.next` chain whose pages carry zero items
(`cyclicEmptyEnv`), the 5000-item safety cap never fires — the item count
stays 0 — and the loop runs forever: no fuel bound ever completes it. -/
theorem fetchAllPages_cyclic_empty_diverges (fuel : Nat) :
    fetchAllPagesFuel cyclicEmptyEnv fuel [] (some "/v3/templates") = none :=
  fetchAllPages_cyclicEmpty_aux fuel "/v3/templates"

/-- First check for a key on an empty limiter: allowed, window opened. -/
theorem rlCheck_fresh (m w : Nat) (ip : String) (now : Nat) :
    rlCheck ⟨m, w, []⟩ ip now = (⟨true, none⟩, ⟨m, w, [(ip, ⟨1, now + w⟩)]⟩) := by
  simp [rlCheck, rlCleanup, lookupEntry, setEntry]

/-- A check inside an active window below the cap increments the count. -/
theorem rlCheck_increment (m w c r : Nat) (ip : String) (now : Nat)
    (hwin : now < r) (hc : c < m) :
    rlCheck ⟨m, w, [(ip, ⟨c, r⟩)]⟩ ip now =
      (⟨true, none⟩, ⟨m, w, [(ip, ⟨c + 1, r⟩)]⟩) := by
  have h1 : ¬ r ≤ now := by omega
  have h2 : ¬ m ≤ c := by omega
  simp [rlCheck, rlCleanup, lookupEntry, setEntry, hwin, h1, h2]

/-- A check inside an active window at the cap is denied with the
ceiling of the remaining milliseconds in seconds; state unchanged. -/
theorem rlCheck_deny (m w c r : Nat) (ip : String) (now : Nat)
    (hwin : now < r) (hc : m ≤ c) :
    rlCheck ⟨m, w, [(ip, ⟨c, r⟩)]⟩ ip now =
      (⟨false, some ((r - now + 999) / 1000)⟩, ⟨m, w, [(ip, ⟨c, r⟩)]⟩) := by
  have h1 : ¬ r ≤ now := by omega
  simp [rlCheck, rlCleanup, lookupEntry, setEntry, hwin, h1, hc]

/-- C9: on the submission limiter (`maxRequests = 5`,
`windowMs = 60000`), six checks for one key starting at `t0`, the later
five at any instants inside the window, produce five allows followed by a
denial whose `retryAfter` is the ceiling in whole seconds of the time left
until the window resets — a positive number. -/
theorem rateLimiter_sixth_call_denied (ip : String) (t0 t1 t2 t3 t4 t5 : Nat)
    (h1 : t1 < t0 + 60000) (h2 : t2 < t0 + 60000) (h3 : t3 < t0 + 60000)
    (h4 : t4 < t0 + 60000) (h5 : t5 < t0 + 60000) :
    (runChecks ⟨5, 60000, []⟩ ip [t0, t1, t2, t3, t4, t5]).1 =
      [⟨true, none⟩, ⟨true, none⟩, ⟨true, none⟩, ⟨true, none⟩, ⟨true, none⟩,
       ⟨false, some ((t0 + 60000 - t5 + 999) / 1000)⟩] ∧
    1 ≤ (t0 + 60000 - t5 + 999) / 1000 := by
  constructor
  · simp only [runChecks]
    rw [rlCheck_fresh]
    simp only
    rw [rlCheck_increment 5 60000 1 (t0 + 60000) ip t1 h1 (by omega)]
    simp only
    rw [rlCheck_increment 5 60000 2 (t0 + 60000) ip t2 h2 (by omega)]
    simp only
    rw [rlCheck_increment 5 60000 3 (t0 + 60000) ip t3 h3 (by omega)]
    simp only
    rw [rlCheck_increment 5 60000 4 (t0 + 60000) ip t4 h4 (by omega)]
    simp only
    rw [rlCheck_deny 5 60000 5 (t0 + 60000) ip t5 h5 (by omega)]
  · rw [Nat.le_div_iff_mul_le (by omega)]
    omega

/-- Witness for C9: six immediate calls; the sixth is denied with
`retryAfter = 60` seconds. -/
theorem rateLimiter_sixth_call_denied_witness :
    (runChecks ⟨5, 60000, []⟩ "203.0.113.7" [0, 0, 0, 0, 0, 0]).1 =
      [⟨true, none⟩, ⟨true, none⟩, ⟨true, none⟩, ⟨true, none⟩, ⟨true, none⟩,
       ⟨false, some ((0 + 60000 - 0 + 999) / 1000)⟩] ∧
    1 ≤ (0 + 60000 - 0 + 999) / 1000 :=
  rateLimiter_sixth_call_denied "203.0.113.7" 0 0 0 0 0 0
    (by omega) (by omega) (by omega) (by omega) (by omega)

/-- A key absent from the map looks up to nothing. -/
theorem lookupEntry_eq_none_of_not_mem (reqs : List (String × RateLimitEntry))
    (ip : String) (h : ip ∉ reqs.map Prod.fst) : lookupEntry reqs ip = none := by
  induction reqs with
  | nil => rfl
  | cons kv rest ih =>
    simp only [List.map_cons, List.mem_cons] at h
    push_neg at h
    simp [lookupEntry, List.find?, Ne.symm h.1]
    simpa [lookupEntry] using ih h.2

/-- With duplicate-free keys, filtering out a key's entry makes the key
look up to nothing. -/
theorem lookupEntry_filter_eq_none (reqs : List (String × RateLimitEntry))
    (hnd : (reqs.map Prod.fst).Nodup) (ip : String) (e : RateLimitEntry)
    (h : lookupEntry reqs ip = some e) (p : String × RateLimitEntry → Bool)
    (hp : p (ip, e) = false) : lookupEntry (reqs.filter p) ip = none := by
  induction reqs with
  | nil => simp [lookupEntry] at h
  | cons kv rest ih =>
    simp only [List.map_cons, List.nodup_cons] at hnd
    by_cases hk : kv.1 = ip
    · have he : kv.2 = e := by
        simp [lookupEntry, List.find?, hk] at h
        exact h
      have hkv : kv = (ip, e) := by
        cases kv
        simp_all
      rw [hkv] at hnd ⊢
      rw [List.filter_cons_of_neg (by simp [hp])]
      refine lookupEntry_eq_none_of_not_mem _ _ ?_
      intro hmem
      have hsub : ((rest.filter p).map Prod.fst).Sublist (rest.map Prod.fst) :=
        List.Sublist.map Prod.fst (List.filter_sublist rest)
      exact hnd.1 (hsub.subset hmem)
    · have h' : lookupEntry rest ip = some e := by
        simpa [lookupEntry, List.find?, hk] using h
      have ih' := ih hnd.2 h'
      by_cases hpk : p kv = true
      · rw [List.filter_cons_of_pos hpk]
        simpa [lookupEntry, List.find?, hk] using ih'
      · rw [List.filter_cons_of_neg hpk]
        exact ih'

/-- A key that is absent after the cleanup sweep starts a fresh window:
the check is allowed. -/
theorem rlCheck_allowed_of_lookup_none (st : RateLimiterState) (ip : String)
    (now : Nat) (h : lookupEntry (rlCleanup now st).requests ip = none) :
    (rlCheck st ip now).1.allowed = true := by
  simp [rlCheck, h]

/-- C10: a denied `check` performs no write beyond the cleanup sweep: the
returned state is exactly the cleaned state, the denied key's entry
(count and reset time) is the same entry that was already stored, the
denial happens strictly inside the window, and the first check for that
key at or after its reset time is allowed again. -/
theorem rateLimiter_denied_frame (st : RateLimiterState) (ip : String) (now : Nat)
    (hnd : (st.requests.map Prod.fst).Nodup)
    (h : (rlCheck st ip now).1.allowed = false) :
    (rlCheck st ip now).2 = rlCleanup now st ∧
    ∃ e, lookupEntry (rlCleanup now st).requests ip = some e ∧
      lookupEntry ((rlCheck st ip now).2).requests ip = some e ∧
      now < e.resetTime ∧
      ∀ now2, e.resetTime ≤ now2 →
        (rlCheck ((rlCheck st ip now).2) ip now2).1.allowed = true := by
  rcases hm : lookupEntry (rlCleanup now st).requests ip with _ | e
  · exfalso
    simp [rlCheck, hm] at h
  · by_cases hr : e.resetTime ≤ now
    · exfalso
      simp [rlCheck, hm, hr] at h
    · by_cases hc : (rlCleanup now st).maxRequests ≤ e.count
      · have hres : rlCheck st ip now =
            (⟨false, some ((e.resetTime - now + 999) / 1000)⟩, rlCleanup now st) := by
          simp [rlCheck, hm, hr, hc]
        refine ⟨?_, e, rfl, ?_, by omega, ?_⟩
        · rw [hres]
        · rw [hres]
          exact hm
        · intro now2 h2
          have hnd' : ((rlCleanup now st).requests.map Prod.fst).Nodup := by
            simp only [rlCleanup]
            exact (hnd.sublist (List.Sublist.map Prod.fst (List.filter_sublist _)))
          have hnone : lookupEntry (rlCleanup now2 (rlCleanup now st)).requests ip
              = none := by
            simp only [rlCleanup]
            simp only [rlCleanup] at hm hnd'
            refine lookupEntry_filter_eq_none _ hnd' ip e hm _ ?_
            simp only [decide_eq_false_iff_not]
            omega
          rw [hres]
          exact rlCheck_allowed_of_lookup_none _ ip now2 hnone
      · exfalso
        simp [rlCheck, hm, hr, hc] at h

/-- Witness for C10: a full window entry is denied at time 500; the state
is exactly the cleaned state. -/
theorem rateLimiter_denied_frame_witness :
    (rlCheck ⟨5, 60000, [("198.51.100.2", ⟨5, 1000⟩)]⟩ "198.51.100.2" 500).2 =
      rlCleanup 500 ⟨5, 60000, [("198.51.100.2", ⟨5, 1000⟩)]⟩ :=
  (rateLimiter_denied_frame ⟨5, 60000, [("198.51.100.2", ⟨5, 1000⟩)]⟩ "198.51.100.2" 500
    (by decide) (by decide)).1

/-- Any entry `serializeFieldValue` emits carries the field's own kind,
and that kind is one of the eleven serializable kinds. -/
theorem serializeFieldValue_type (f : CmpFormField) (v : Option JsValue)
    (e : SerializedFieldEntry) (h : serializeFieldValue f v = some e) :
    e.type = f.type ∧
    f.type ∈ (["text", "text_area", "richtext", "brief", "checkbox", "dropdown",
      "label", "radio_button", "date", "percentage_number",
      "currency_number"] : List String) := by
  unfold serializeFieldValue at h
  repeat' split at h
  all_goals try cases h
  all_goals simp_all

/-- C4 (amended): `serializeFormData` returns exactly the non-null
serializations of the fields whose identifier is in the visible set,
concatenated in the order of the input field list (which equals ascending
`sortOrder` only when the input is already sorted), and no emitted entry
has kind `file`, `instruction` or `section` (unrecognized kinds are
likewise never emitted: every entry has one of the eleven serializable
kinds). -/
theorem serializeFormData_spec (fields : List CmpFormField) (values : FormValues)
    (vis : List String) :
    serializeFormData fields values vis =
      fields.filterMap (fun f =>
        if f.identifier ∈ vis then serializeFieldValue f (lookupValue values f.identifier)
        else none) ∧
    ∀ e ∈ serializeFormData fields values vis,
      e.type ≠ "file" ∧ e.type ≠ "instruction" ∧ e.type ≠ "section" ∧
      e.type ∈ (["text", "text_area", "richtext", "brief", "checkbox", "dropdown",
        "label", "radio_button", "date", "percentage_number",
        "currency_number"] : List String) := by
  have hmain : serializeFormData fields values vis =
      fields.filterMap (fun f =>
        if f.identifier ∈ vis then serializeFieldValue f (lookupValue values f.identifier)
        else none) := by
    induction fields with
    | nil => rfl
    | cons f rest ih =>
      simp only [serializeFormData, List.filterMap_cons]
      by_cases hv : f.identifier ∈ vis
      · rw [if_pos hv, if_pos hv]
        cases hse : serializeFieldValue f (lookupValue values f.identifier) with
        | none => exact ih
        | some e => rw [ih]
      · rw [if_neg hv, if_neg hv]
        exact ih
  refine ⟨hmain, ?_⟩
  intro e he
  rw [hmain] at he
  rw [List.mem_filterMap] at he
  obtain ⟨f, hf, hsome⟩ := he
  by_cases hv : f.identifier ∈ vis
  · rw [if_pos hv] at hsome
    obtain ⟨hty, hmem⟩ := serializeFieldValue_type f _ e hsome
    refine ⟨?_, ?_, ?_, by rw [hty]; exact hmem⟩ <;> rw [hty] <;>
      (intro hcontra; rw [hcontra] at hmem; simp at hmem)
  · rw [if_neg hv] at hsome
    cases hsome

/-- Witness for C4 (amended): one visible text field and one invisible
field serialize to exactly the visible field's entry, whose kind is not
`file`. -/
theorem serializeFormData_spec_witness :
    serializeFormData
        [⟨"t1", "T1", "text", false, 1, none, none⟩,
         ⟨"t2", "T2", "text", false, 2, none, none⟩] [] ["t1"] =
      [⟨"t1", "T1", "text", false, 1, none, none⟩,
       ⟨"t2", "T2", "text", false, 2, none, none⟩].filterMap (fun f =>
        if f.identifier ∈ ["t1"] then serializeFieldValue f (lookupValue [] f.identifier)
        else none) ∧
    (SerializedFieldEntry.mk "t1" "text" [.str ""]).type ≠ "file" :=
  ⟨(serializeFormData_spec
      [⟨"t1", "T1", "text", false, 1, none, none⟩,
       ⟨"t2", "T2", "text", false, 2, none, none⟩] [] ["t1"]).1,
   ((serializeFormData_spec
      [⟨"t1", "T1", "text", false, 1, none, none⟩,
       ⟨"t2", "T2", "text", false, 2, none, none⟩] [] ["t1"]).2
     ⟨"t1", "text", [.str ""]⟩ (by decide)).1⟩

/-- C4 counterexample: for an input field list not sorted by `sortOrder`
(orders `[2, 1]`), `serializeFormData` emits the entries in input order,
not in ascending `sortOrder`: its output differs from the output on the
`sortOrder`-sorted list. -/
theorem serializeFormData_order_counterexample :
    serializeFormData
        [⟨"b", "B", "text", false, 2, none, none⟩,
         ⟨"a", "A", "text", false, 1, none, none⟩] [] ["a", "b"] =
      [⟨"b", "text", [.str ""]⟩, ⟨"a", "text", [.str ""]⟩] ∧
    sortFields
        [⟨"b", "B", "text", false, 2, none, none⟩,
         ⟨"a", "A", "text", false, 1, none, none⟩] =
      [⟨"a", "A", "text", false, 1, none, none⟩,
       ⟨"b", "B", "text", false, 2, none, none⟩] ∧
    serializeFormData
        [⟨"b", "B", "text", false, 2, none, none⟩,
         ⟨"a", "A", "text", false, 1, none, none⟩] [] ["a", "b"] ≠
      serializeFormData
        (sortFields
          [⟨"b", "B", "text", false, 2, none, none⟩,
           ⟨"a", "A", "text", false, 1, none, none⟩]) [] ["a", "b"] := by
  refine ⟨by decide, by decide, by decide⟩

/-- C5 (amended): for `percentage_number` and `currency_number` the
serializer always emits a single JSON string (never a number): the decimal
string of a numeric value, `"0"` exactly for an absent (`undefined`/`null`)
or empty-string value, and the unchanged string for any other string —
including non-numeric strings, which are NOT coerced to `"0"`. -/
theorem serializeNumber_spec (f : CmpFormField) (v : Option JsValue)
    (ht : f.type = "percentage_number" ∨ f.type = "currency_number") :
    serializeFieldValue f v =
      some ⟨f.identifier, f.type, [.str (numericSerializedString v)]⟩ ∧
    (∀ n : Int, v = some (.vNum n) → numericSerializedString v = toString n) ∧
    ((v = none ∨ v = some .vNull ∨ v = some (.vStr "")) →
      numericSerializedString v = "0") ∧
    (∀ s : String, v = some (.vStr s) → s ≠ "" → numericSerializedString v = s) := by
  refine ⟨?_, ?_, ?_, ?_⟩
  · obtain ⟨fid, flabel, fty, freq, ford, fmeta, frules⟩ := f
    simp only at ht ⊢
    rcases ht with h | h <;> subst h <;> simp [serializeFieldValue]
  · rintro n rfl
    simp [numericSerializedString]
  · rintro (rfl | rfl | rfl) <;> simp [numericSerializedString]
  · rintro s rfl hs
    simp [numericSerializedString, hs]

/-- Witness for C5 (amended): the numeric value 42 serializes to the
single string `"42"`. -/
theorem serializeNumber_spec_witness :
    serializeFieldValue ⟨"pct", "Pct", "percentage_number", false, 1, none, none⟩
        (some (.vNum 42)) =
      some ⟨"pct", "percentage_number",
        [.str (numericSerializedString (some (.vNum 42)))]⟩ ∧
    numericSerializedString (some (.vNum 42)) = toString (42 : Int) :=
  ⟨(serializeNumber_spec ⟨"pct", "Pct", "percentage_number", false, 1, none, none⟩
      (some (.vNum 42)) (Or.inl rfl)).1,
   (serializeNumber_spec ⟨"pct", "Pct", "percentage_number", false, 1, none, none⟩
      (some (.vNum 42)) (Or.inl rfl)).2.1 42 rfl⟩

/-- C5 counterexample: the non-numeric (invalid) value `"abc"` is passed
through as the string `"abc"`, not coerced to `"0"` as the claim states. -/
theorem serializeNumber_counterexample :
    serializeFieldValue ⟨"pct", "Pct", "percentage_number", false, 1, none, none⟩
        (some (.vStr "abc")) =
      some ⟨"pct", "percentage_number", [.str "abc"]⟩ ∧
    SerializedValue.str "abc" ≠ SerializedValue.str "0" := by
  refine ⟨by decide, by decide⟩

/-- On a list already strictly ascending in `order`, the stable sort is
the identity. -/
theorem sortFields_eq_of_sorted (l : List CmpFormField)
    (h : l.Pairwise (fun a b => a.order < b.order)) : sortFields l = l := by
  induction l with
  | nil => rfl
  | cons f fs ih =>
    rw [List.pairwise_cons] at h
    rw [sortFields, ih h.2]
    cases fs with
    | nil => rfl
    | cons g gs =>
      rw [insertByOrder, if_pos (le_of_lt (h.1 g (by simp)))]

/-- A field with no rules leaves the evaluator state unchanged. -/
theorem applyFieldRules_no_rules (sorted : List CmpFormField) (values : FormValues)
    (st : Finset String × List (String × List String)) (f : CmpFormField)
    (h : f.logic_rules.getD [] = []) :
    applyFieldRules sorted values st f = st := by
  simp [applyFieldRules, h]

/-- Folding the evaluator over fields that all have no rules is the
identity. -/
theorem foldl_applyFieldRules_id (sorted : List CmpFormField) (values : FormValues)
    (l : List CmpFormField) (st : Finset String × List (String × List String))
    (h : ∀ f ∈ l, f.logic_rules.getD [] = []) :
    l.foldl (applyFieldRules sorted values) st = st := by
  induction l generalizing st with
  | nil => rfl
  | cons f fs ih =>
    rw [List.foldl_cons, applyFieldRules_no_rules sorted values st f (h f (by simp))]
    exact ih st (fun g hg => h g (by simp [hg]))

/-- Computing `findIndexJs` on a concatenation whose prefix all fails the predicate
and whose next element satisfies it. -/
theorem findIndexJs_append_cons {α : Type} (p : α → Bool) (pre : List α) (x : α)
    (rest : List α) (hpre : ∀ a ∈ pre, p a = false) (hx : p x = true) :
    findIndexJs p (pre ++ x :: rest) = some pre.length := by
  induction pre with
  | nil => simp [findIndexJs, hx]
  | cons a as ih =>
    rw [List.cons_append, findIndexJs, if_neg (by simp [hpre a (by simp)]),
      ih (fun b hb => hpre b (by simp [hb]))]
    rfl

/-- The strictly-between slice of the decomposed field list. -/
theorem slice_between (pre mid post : List CmpFormField) (s t : CmpFormField) :
    ((pre ++ s :: mid ++ t :: post).drop (pre.length + 1)).take mid.length = mid := by
  have h1 : pre ++ s :: mid ++ t :: post = (pre ++ [s]) ++ (mid ++ t :: post) := by simp
  have h2 : pre.length + 1 = (pre ++ [s]).length := by simp
  rw [h1, h2, List.drop_left]
  exact List.take_left mid (t :: post)

/-- Erasing each identifier of a list from a finset is set difference. -/
theorem foldl_erase_eq_sdiff (l : List CmpFormField) (vis : Finset String) :
    l.foldl (fun v f => v.erase f.identifier) vis =
      vis \ (l.map (·.identifier)).toFinset := by
  induction l generalizing vis with
  | nil => simp
  | cons f fs ih =>
    rw [List.foldl_cons, ih, List.map_cons, List.toFinset_cons, Finset.erase_eq]
    ext x
    simp only [Finset.mem_sdiff, Finset.mem_singleton, Finset.mem_insert]
    tauto

/-- A firing `jump_to` rule on `s` targeting the later field `t` erases
exactly the identifiers strictly between them from the visibility set and
leaves the choice filters alone. -/
theorem applyRule_jump_fires (pre mid post : List CmpFormField) (s t : CmpFormField)
    (r : CmpLogicRule) (values : FormValues)
    (st : Finset String × List (String × List String))
    (hnodup : ((pre ++ s :: mid ++ t :: post).map (·.identifier)).Nodup)
    (haction : r.action = "jump_to") (htarget : r.target_identifier = t.identifier)
    (hcond : evaluateConditions r values = true) :
    applyRule (pre ++ s :: mid ++ t :: post) values s st r =
      (st.1 \ (mid.map (·.identifier)).toFinset, st.2) := by
  have hmaps : (pre ++ s :: mid ++ t :: post).map (·.identifier) =
      pre.map (·.identifier) ++ s.identifier ::
        (mid.map (·.identifier) ++ t.identifier :: post.map (·.identifier)) := by
    simp
  rw [hmaps] at hnodup
  obtain ⟨hpreN, hrestN, hdisj⟩ := List.nodup_append.mp hnodup
  have hsid_pre : s.identifier ∉ pre.map (·.identifier) := by
    intro hmem
    exact absurd (by simp) (hdisj hmem)
  have htid_pre : t.identifier ∉ pre.map (·.identifier) := by
    intro hmem
    exact absurd (by simp) (hdisj hmem)
  rw [List.nodup_cons] at hrestN
  have htid_ne_s : t.identifier ≠ s.identifier := by
    intro heq
    exact hrestN.1 (by simp [← heq])
  have htid_mid : t.identifier ∉ mid.map (·.identifier) := by
    intro hmem
    obtain ⟨-, htN, hdisj2⟩ := List.nodup_append.mp hrestN.2
    exact absurd (by simp) (hdisj2 hmem)
  have hci : findIndexJs (fun f => decide (f.identifier = s.identifier))
      (pre ++ s :: mid ++ t :: post) = some pre.length := by
    have hshape : pre ++ s :: mid ++ t :: post = pre ++ s :: (mid ++ t :: post) := by simp
    rw [hshape]
    refine findIndexJs_append_cons (fun f => decide (f.identifier = s.identifier))
      pre s (mid ++ t :: post) ?_ (decide_eq_true rfl)
    intro a ha
    simp only [decide_eq_false_iff_not]
    intro heq
    exact hsid_pre (by rw [← heq]; exact List.mem_map_of_mem _ ha)
  have hL : pre ++ s :: mid ++ t :: post = (pre ++ s :: mid) ++ t :: post := by simp
  have hti : findIndexJs (fun f => decide (f.identifier = r.target_identifier))
      (pre ++ s :: mid ++ t :: post) = some (pre.length + (mid.length + 1)) := by
    rw [hL]
    have := findIndexJs_append_cons
      (fun f => decide (f.identifier = r.target_identifier)) (pre ++ s :: mid) t post
      (by
        intro a ha
        simp only [decide_eq_false_iff_not, htarget]
        intro heq
        rcases List.mem_append.mp ha with h | h
        · exact htid_pre (by rw [← heq]; exact List.mem_map_of_mem _ h)
        · rcases List.mem_cons.mp h with h' | h'
          · exact htid_ne_s (by rw [← heq, h'])
          · exact htid_mid (by rw [← heq]; exact List.mem_map_of_mem _ h'))
      (by simp [htarget])
    rw [this]
    congr 1
    simp
  have hsv : ¬ (r.action = "show_values" ∧ evaluateConditions r values = true) := by
    rintro ⟨hcontra, -⟩
    rw [haction] at hcontra
    exact absurd hcontra (by decide)
  have hjf : r.action = "jump_to" ∧ evaluateConditions r values = true := ⟨haction, hcond⟩
  simp only [applyRule]
  rw [hci, hti, if_neg hsv, if_pos hjf]
  dsimp only
  rw [if_pos (by omega : pre.length < pre.length + (mid.length + 1))]
  have harith : pre.length + (mid.length + 1) - (pre.length + 1) = mid.length := by omega
  rw [harith, slice_between, foldl_erase_eq_sdiff]

/-- A `jump_to` rule whose target does not occur strictly after the source
in the sorted list (earlier, the source itself, or unknown) leaves the
state unchanged, whether or not it fires. -/
theorem applyRule_jump_noop (sorted : List CmpFormField) (s : CmpFormField)
    (r : CmpLogicRule) (values : FormValues)
    (st : Finset String × List (String × List String))
    (haction : r.action = "jump_to")
    (hidx : ∀ ci ti, findIndexJs (fun f => decide (f.identifier = s.identifier)) sorted = some ci →
      findIndexJs (fun f => decide (f.identifier = r.target_identifier)) sorted = some ti →
      ti ≤ ci) :
    applyRule sorted values s st r = st := by
  have hsv : ¬ (r.action = "show_values" ∧ evaluateConditions r values = true) := by
    rintro ⟨hcontra, -⟩
    rw [haction] at hcontra
    exact absurd hcontra (by decide)
  simp only [applyRule]
  rw [if_neg hsv]
  by_cases hfire : r.action = "jump_to" ∧ evaluateConditions r values = true
  · rw [if_pos hfire]
    cases hci : findIndexJs (fun f => decide (f.identifier = s.identifier)) sorted with
    | none => rfl
    | some ci =>
      cases hti : findIndexJs (fun f => decide (f.identifier = r.target_identifier)) sorted with
      | none => rfl
      | some ti =>
        dsimp only
        rw [if_neg (by have := hidx ci ti hci hti; omega : ¬ ci < ti)]
  · rw [if_neg hfire]

/-- C3: for every field list (strictly sorted by `sortOrder`, identifiers
distinct) carrying exactly one rule — a `jump_to` on source `s` — and any
values: (1) when the rule fires and its target `t` occurs strictly after
`s`, the recomputed visibility is exactly the full identifier set minus
the identifiers strictly between `s` and `t` — both endpoints stay
visible and every field in between is hidden; (2) a `jump_to` rule whose
target occurs at or before the source, or does not occur at all, changes
nothing: everything stays visible. -/
theorem computeConditionalLogic_jump_to_spec :
    (∀ (pre mid post : List CmpFormField) (s t : CmpFormField) (r : CmpLogicRule)
        (values : FormValues),
      (pre ++ s :: mid ++ t :: post).Pairwise (fun a b => a.order < b.order) →
      ((pre ++ s :: mid ++ t :: post).map (·.identifier)).Nodup →
      s.logic_rules = some [r] →
      (∀ f ∈ pre ++ s :: mid ++ t :: post, f.identifier ≠ s.identifier →
        f.logic_rules.getD [] = []) →
      r.action = "jump_to" →
      r.target_identifier = t.identifier →
      evaluateConditions r values = true →
      (computeConditionalLogic (pre ++ s :: mid ++ t :: post) values).visibleFields =
          ((pre ++ s :: mid ++ t :: post).map (·.identifier)).toFinset \
            (mid.map (·.identifier)).toFinset ∧
      s.identifier ∈
        (computeConditionalLogic (pre ++ s :: mid ++ t :: post) values).visibleFields ∧
      t.identifier ∈
        (computeConditionalLogic (pre ++ s :: mid ++ t :: post) values).visibleFields ∧
      (∀ f ∈ mid, f.identifier ∉
        (computeConditionalLogic (pre ++ s :: mid ++ t :: post) values).visibleFields)) ∧
    (∀ (fields : List CmpFormField) (s : CmpFormField) (r : CmpLogicRule)
        (values : FormValues),
      fields.Pairwise (fun a b => a.order < b.order) →
      (fields.map (·.identifier)).Nodup →
      s ∈ fields →
      s.logic_rules = some [r] →
      (∀ f ∈ fields, f.identifier ≠ s.identifier → f.logic_rules.getD [] = []) →
      r.action = "jump_to" →
      (∀ ci ti,
        findIndexJs (fun f => decide (f.identifier = s.identifier)) fields = some ci →
        findIndexJs (fun f => decide (f.identifier = r.target_identifier)) fields
          = some ti →
        ti ≤ ci) →
      (computeConditionalLogic fields values).visibleFields =
        (fields.map (·.identifier)).toFinset) := by
  constructor
  · intro pre mid post s t r values hsorted hnodup hsrule hother haction htarget hcond
    -- identifier disjointness facts
    have hmaps : (pre ++ s :: mid ++ t :: post).map (·.identifier) =
        pre.map (·.identifier) ++ s.identifier ::
          (mid.map (·.identifier) ++ t.identifier :: post.map (·.identifier)) := by
      simp
    have hnodup' := hnodup
    rw [hmaps] at hnodup'
    obtain ⟨hpreN, hrestN, hdisj⟩ := List.nodup_append.mp hnodup'
    rw [List.nodup_cons] at hrestN
    have hsid_pre : s.identifier ∉ pre.map (·.identifier) := by
      intro hmem
      exact absurd (by simp) (hdisj hmem)
    have hsid_mid : s.identifier ∉ mid.map (·.identifier) := by
      intro hmem
      exact hrestN.1 (by simp [hmem])
    have htid_mid : t.identifier ∉ mid.map (·.identifier) := by
      intro hmem
      obtain ⟨-, -, hdisj2⟩ := List.nodup_append.mp hrestN.2
      exact absurd (by simp) (hdisj2 hmem)
    -- fields other than s have no rules
    have hnorule_pre : ∀ f ∈ pre, f.logic_rules.getD [] = [] := by
      intro f hf
      refine hother f (by simp [hf]) ?_
      intro heq
      exact hsid_pre (by rw [← heq]; exact List.mem_map_of_mem _ hf)
    have hnorule_rest : ∀ f ∈ mid ++ t :: post, f.logic_rules.getD [] = [] := by
      intro f hf
      refine hother f (by
        simp only [List.mem_append, List.mem_cons] at hf ⊢
        tauto) ?_
      intro heq
      exact hrestN.1 (by rw [← heq]; simpa using List.mem_map_of_mem (·.identifier) hf)
    have hnorule_mid : ∀ f ∈ mid, f.logic_rules.getD [] = [] := fun f hf =>
      hnorule_rest f (by simp [hf])
    have hnorule_t : t.logic_rules.getD [] = [] :=
      hnorule_rest t (by simp)
    have hnorule_post : ∀ f ∈ post, f.logic_rules.getD [] = [] := fun f hf =>
      hnorule_rest f (by simp [hf])
    have hsort : sortFields (pre ++ s :: mid ++ t :: post) =
        pre ++ s :: mid ++ t :: post :=
      sortFields_eq_of_sorted _ hsorted
    have hFs : ∀ st, applyFieldRules (pre ++ s :: mid ++ t :: post) values st s
        = applyRule (pre ++ s :: mid ++ t :: post) values s st r := by
      intro st
      simp [applyFieldRules, hsrule]
    have hmain : computeConditionalLogic (pre ++ s :: mid ++ t :: post) values =
        ⟨((pre ++ s :: mid ++ t :: post).map (·.identifier)).toFinset \
            (mid.map (·.identifier)).toFinset, []⟩ := by
      simp only [computeConditionalLogic]
      rw [hsort, List.foldl_append, List.foldl_append,
        foldl_applyFieldRules_id _ _ pre _ hnorule_pre,
        List.foldl_cons, List.foldl_cons, hFs,
        applyRule_jump_fires pre mid post s t r values _ hnodup haction htarget hcond,
        foldl_applyFieldRules_id _ _ mid _ hnorule_mid,
        applyFieldRules_no_rules _ _ _ t hnorule_t,
        foldl_applyFieldRules_id _ _ post _ hnorule_post]
    refine ⟨by rw [hmain], ?_, ?_, ?_⟩
    · rw [hmain]
      simp only [Finset.mem_sdiff, List.mem_toFinset]
      exact ⟨by simp, by simpa using hsid_mid⟩
    · rw [hmain]
      simp only [Finset.mem_sdiff, List.mem_toFinset]
      exact ⟨by simp, by simpa using htid_mid⟩
    · intro f hf
      rw [hmain]
      simp only [Finset.mem_sdiff, List.mem_toFinset]
      rintro ⟨-, hnot⟩
      exact hnot (List.mem_map_of_mem _ hf)
  · intro fields s r values hsorted hnodup hs hsrule hother haction hidx
    obtain ⟨l₁, l₂, rfl⟩ := List.append_of_mem hs
    have hmaps : ((l₁ ++ s :: l₂).map (·.identifier)) =
        l₁.map (·.identifier) ++ s.identifier :: l₂.map (·.identifier) := by
      simp
    have hnodup' := hnodup
    rw [hmaps] at hnodup'
    obtain ⟨h1N, h2N, hdisj⟩ := List.nodup_append.mp hnodup'
    rw [List.nodup_cons] at h2N
    have hnorule_l₁ : ∀ f ∈ l₁, f.logic_rules.getD [] = [] := by
      intro f hf
      refine hother f (by simp [hf]) ?_
      intro heq
      exact hdisj (List.mem_map_of_mem _ hf) (by simp [heq])
    have hnorule_l₂ : ∀ f ∈ l₂, f.logic_rules.getD [] = [] := by
      intro f hf
      refine hother f (by simp [hf]) ?_
      intro heq
      exact h2N.1 (by rw [← heq]; exact List.mem_map_of_mem _ hf)
    have hsort : sortFields (l₁ ++ s :: l₂) = l₁ ++ s :: l₂ :=
      sortFields_eq_of_sorted _ hsorted
    have hFs : ∀ st, applyFieldRules (l₁ ++ s :: l₂) values st s
        = applyRule (l₁ ++ s :: l₂) values s st r := by
      intro st
      simp [applyFieldRules, hsrule]
    simp only [computeConditionalLogic]
    rw [hsort, List.foldl_append, List.foldl_cons,
      foldl_applyFieldRules_id _ _ l₁ _ hnorule_l₁, hFs,
      applyRule_jump_noop _ s r values _ haction hidx,
      foldl_applyFieldRules_id _ _ l₂ _ hnorule_l₂]

/-- Witness for C3: field order `[A, B, C]` with a firing `jump_to` rule
on `A` targeting `C`: recomputed visibility is all identifiers minus `B`,
keeping `A` and `C` visible. -/
theorem computeConditionalLogic_jump_to_spec_witness :
    (computeConditionalLogic [cfJumpSource, cfJumpMid, cfJumpTarget]
        [("A", .vStr "yes")]).visibleFields =
      ([cfJumpSource, cfJumpMid, cfJumpTarget].map (·.identifier)).toFinset \
        ([cfJumpMid].map (·.identifier)).toFinset ∧
    "A" ∈ (computeConditionalLogic [cfJumpSource, cfJumpMid, cfJumpTarget]
        [("A", .vStr "yes")]).visibleFields ∧
    "C" ∈ (computeConditionalLogic [cfJumpSource, cfJumpMid, cfJumpTarget]
        [("A", .vStr "yes")]).visibleFields ∧
    (∀ f ∈ [cfJumpMid], f.identifier ∉
      (computeConditionalLogic [cfJumpSource, cfJumpMid, cfJumpTarget]
        [("A", .vStr "yes")]).visibleFields) :=
  computeConditionalLogic_jump_to_spec.1 [] [cfJumpMid] [] cfJumpSource cfJumpTarget
    ⟨"jump_to", "C", [⟨"A", "equal", ["yes"]⟩]⟩ [("A", .vStr "yes")]
    (by decide) (by decide) rfl (by decide) rfl rfl (by decide)

end WorkRequest
